import Mathlib

/-!
Verification of the mpc-stark core: a shallow embedding of the SPDZ
authenticated algebra layer (`src/algebra/authenticated_stark_point.rs`)
and of the fabric's allocation layer (`src/fabric.rs`, `src/fabric/result.rs`).

The concrete curve and field arithmetic is out of scope of the repository
(the spec treats it as opaque group operations with an embedding
`Scalar → Point`); we model the Stark curve as the prime-order cyclic group
generated by `G`, represented by the discrete logarithm of a point with
respect to `G`.  All SPDZ-layer operations use only the opaque group
operations, so this model is faithful to everything the source does.
-/

namespace MpcStark

/-- The order of the Stark curve group, which is also the modulus of its
scalar field.  A prime of roughly 252 bits. -/
def STARK_ORDER : Nat :=
  3618502788666131213697322783095070105526743751716087489154079457884512865583

/-- Modelled from the spec: the scalar field of the Stark curve
(`algebra/scalar.rs` is not under `src/`); an opaque prime field per §1. -/
abbrev Scalar := ZMod STARK_ORDER

instance : Fact (1 < STARK_ORDER) := ⟨by norm_num [STARK_ORDER]⟩

/-- Modelled from the spec: a point on the Stark curve
(`algebra/stark_curve.rs` is not under `src/`).  The curve group has prime
order, hence is cyclic; we represent a point by its discrete logarithm with
respect to the fixed generator. -/
structure StarkPoint where
  /-- The discrete logarithm of the point with respect to the generator -/
  dlog : Scalar
deriving DecidableEq, Repr

namespace StarkPoint

/-- The additive identity of the curve group -/
def identity : StarkPoint := ⟨0⟩

/-- The fixed generator of the curve group -/
def generator : StarkPoint := ⟨1⟩

instance : Add StarkPoint := ⟨fun p q => ⟨p.dlog + q.dlog⟩⟩

instance : Sub StarkPoint := ⟨fun p q => ⟨p.dlog - q.dlog⟩⟩

instance : Neg StarkPoint := ⟨fun p => ⟨-p.dlog⟩⟩

/-- Scalar multiplication written `scalar * point`, as in the source. -/
instance : HMul Scalar StarkPoint StarkPoint := ⟨fun s p => ⟨s * p.dlog⟩⟩

/-- Scalar multiplication written `point * scalar`, as in the source. -/
instance : HMul StarkPoint Scalar StarkPoint := ⟨fun p s => ⟨p.dlog * s⟩⟩

theorem ext_dlog {p q : StarkPoint} (h : p.dlog = q.dlog) : p = q := by
  cases p; cases q; simpa using h

@[simp] theorem add_dlog (p q : StarkPoint) : (p + q).dlog = p.dlog + q.dlog := rfl

@[simp] theorem sub_dlog (p q : StarkPoint) : (p - q).dlog = p.dlog - q.dlog := rfl

@[simp] theorem neg_dlog (p : StarkPoint) : (-p).dlog = -p.dlog := rfl

@[simp] theorem smul_dlog (s : Scalar) (p : StarkPoint) : (s * p).dlog = s * p.dlog := rfl

@[simp] theorem mulsc_dlog (p : StarkPoint) (s : Scalar) : (p * s).dlog = p.dlog * s := rfl

@[simp] theorem identity_dlog : identity.dlog = 0 := rfl

end StarkPoint

/-- The value of a result, from `src/fabric/result.rs` (`ResultValue`).
Byte payloads are sequences of bytes, modelled as natural numbers. -/
inductive ResultValue where
  /-- A byte value -/
  | Bytes : List Nat → ResultValue
  /-- A scalar value -/
  | Scalar : MpcStark.Scalar → ResultValue
  /-- A batch of scalars -/
  | ScalarBatch : List MpcStark.Scalar → ResultValue
  /-- A point on the curve -/
  | Point : StarkPoint → ResultValue
  /-- A batch of points on the curve -/
  | PointBatch : List StarkPoint → ResultValue
deriving DecidableEq

namespace ResultValue

/-- The coercion `From<ResultValue> for Scalar` of `src/fabric/result.rs`;
the source panics on a variant mismatch (a programmer-error contract), we
return a junk value instead.  No theorem below exercises the junk case. -/
def toScalar : ResultValue → MpcStark.Scalar
  | .Scalar s => s
  | _ => 0

/-- The coercion `From<ResultValue> for StarkPoint` of `src/fabric/result.rs`;
junk value on mismatch as for `toScalar`. -/
def toPoint : ResultValue → StarkPoint
  | .Point p => p
  | _ => StarkPoint.identity

/-- The coercion `From<ResultValue> for Vec<Scalar>`; junk on mismatch. -/
def toScalarList : ResultValue → List MpcStark.Scalar
  | .ScalarBatch s => s
  | _ => []

/-- The coercion `From<ResultValue> for Vec<StarkPoint>`; junk on mismatch. -/
def toPointList : ResultValue → List StarkPoint
  | .PointBatch p => p
  | _ => []

end ResultValue

/-- Modelled from the spec: the error taxonomy of §7 (`src/error.rs` is not
under `src/`); only the authentication failure is observable in the
authenticated algebra layer. -/
inductive MpcError where
  /-- The MAC check failed during an authenticated opening -/
  | AuthenticationError : MpcError
deriving DecidableEq

namespace Scalar

/-- Modelled from the spec: `Scalar::from(bool)` used for the MAC-check
sentinel (`algebra/scalar.rs` is not under `src/`); per §6.4 the failure
sentinel is the scalar 0, success is 1. -/
def ofBool (b : Bool) : Scalar := if b then 1 else 0

end Scalar

/-- Modelled from the spec: the hash commitment of §4.4 (`src/commitment.rs`
is not under `src/`): `{value, blinder, commitment = H(value, blinder)}`.
The hash `H` is kept as an explicit parameter of the verification
functions. -/
structure HashCommitment where
  /-- The committed value -/
  value : StarkPoint
  /-- The random blinder -/
  blinder : Scalar
  /-- The commitment, expected to equal `H(value, blinder)` -/
  commitment : Scalar
deriving DecidableEq

namespace HashCommitment

/-- Modelled from the spec: `HashCommitment::verify` recomputes
`H(value, blinder)` and compares it to the stored commitment (§4.4 step 4). -/
def verify (H : StarkPoint → Scalar → Scalar) (c : HashCommitment) : Bool :=
  H c.value c.blinder = c.commitment

end HashCommitment

namespace AuthenticatedStarkPointResult

/-- The MAC-check verification of `src/algebra/authenticated_stark_point.rs`
lines 179-203 (`AuthenticatedStarkPointResult::verify_mac_check`): check the
peer's hash commitment opening, then check that the two MAC-check shares sum
to the curve group identity. -/
def verify_mac_check (H : StarkPoint → Scalar → Scalar)
    (my_mac_share peer_mac_share : StarkPoint)
    (peer_mac_commitment peer_blinder : Scalar) : Bool :=
  let peer_comm : HashCommitment :=
    { value := peer_mac_share, blinder := peer_blinder,
      commitment := peer_mac_commitment }
  if !(peer_comm.verify H) then
    false
  else if my_mac_share + peer_mac_share ≠ StarkPoint.identity then
    false
  else
    true

/-- The MAC-check gate of `open_authenticated`
(`src/algebra/authenticated_stark_point.rs` lines 214-229): the closure
receives `[mac_key_share, opened_value, public_modifier, mac_share]` and
computes `(value + modifier) * mac_key_share - mac_share`. -/
def mac_check_gate (args : List ResultValue) : ResultValue :=
  let mac_key_share := (args.getD 0 (.Scalar 0)).toScalar
  let value := (args.getD 1 (.Scalar 0)).toPoint
  let modifier := (args.getD 2 (.Scalar 0)).toPoint
  let mac_share := (args.getD 3 (.Scalar 0)).toPoint
  .Point ((value + modifier) * mac_key_share - mac_share)

/-- The commitment-check gate of `open_authenticated`
(`src/algebra/authenticated_stark_point.rs` lines 242-262): the closure
receives `[mac_check, peer_mac_check, peer_blinder, peer_commit]` and emits
`Scalar::from(verify_mac_check(..))`. -/
def commitment_check_gate (H : StarkPoint → Scalar → Scalar)
    (args : List ResultValue) : ResultValue :=
  let my_mac_check := (args.getD 0 (.Scalar 0)).toPoint
  let peer_mac_check := (args.getD 1 (.Scalar 0)).toPoint
  let peer_blinder := (args.getD 2 (.Scalar 0)).toScalar
  let peer_commitment := (args.getD 3 (.Scalar 0)).toScalar
  .Scalar (Scalar.ofBool
    (verify_mac_check H my_mac_check peer_mac_check peer_commitment peer_blinder))

end AuthenticatedStarkPointResult

/-- The `Future` implementation for `AuthenticatedStarkPointOpenResult`
(`src/algebra/authenticated_stark_point.rs` lines 402-416): once both the
opened value and the MAC-check scalar are resolved, the future yields
`Ok(value)` if the MAC check equals `Scalar::from(1)` and
`Err(AuthenticationError)` otherwise. -/
def pollOpenResult (value : StarkPoint) (mac_check : Scalar) :
    Except MpcError StarkPoint :=
  if mac_check = 1 then
    .ok value
  else
    .error .AuthenticationError

/-- The data one element of an authenticated opening depends on, from one
party's point of view: the opened value `share₀ + share₁`, the party's
public modifier and MAC share, and the three values received from the peer
during the commit-then-reveal rounds (its MAC-check share, its blinder and
its commitment).  Under honest execution the network delivers exactly these
values to the gates of `open_authenticated`. -/
structure AuthOpenInput where
  /-- The opened value, produced by the unauthenticated `open` -/
  value : StarkPoint
  /-- This party's public modifier -/
  modifier : StarkPoint
  /-- This party's MAC share -/
  mac : StarkPoint
  /-- The MAC-check share revealed by the peer -/
  peer_mac_check : StarkPoint
  /-- The blinder revealed by the peer -/
  peer_blinder : Scalar
  /-- The hash commitment received from the peer before the reveal -/
  peer_commitment : Scalar
deriving DecidableEq

namespace AuthenticatedStarkPointResult

/-- The value-level composition of `open_authenticated`
(`src/algebra/authenticated_stark_point.rs` lines 209-268): compute the
MAC-check share by `mac_check_gate` over
`[mac_key, opened_value, public_modifier, mac]`, then the check scalar by
`commitment_check_gate` over
`[mac_check, peer_mac_check, peer_blinder, peer_commit]`, and package both
into the open result whose `poll` is `pollOpenResult`. -/
def open_authenticated (H : StarkPoint → Scalar → Scalar)
    (mac_key_share : Scalar) (i : AuthOpenInput) : Except MpcError StarkPoint :=
  let mac_check := (mac_check_gate
    [.Scalar mac_key_share, .Point i.value, .Point i.modifier, .Point i.mac]).toPoint
  let commitment_check := (commitment_check_gate H
    [.Point mac_check, .Point i.peer_mac_check, .Scalar i.peer_blinder,
     .Scalar i.peer_commitment]).toScalar
  pollOpenResult i.value commitment_check

/-- The loop body of the batched MAC-check gate
(`src/algebra/authenticated_stark_point.rs` lines 296-306): repeatedly
remove `[value, modifier, mac_share]` from the argument list and push
`mac_key_share * (value + modifier) - mac_share`. -/
def mac_check_loop (mac_key_share : Scalar) : List ResultValue → List StarkPoint
  | value :: modifier :: mac_share :: rest =>
      (mac_key_share * (value.toPoint + modifier.toPoint) - mac_share.toPoint)
        :: mac_check_loop mac_key_share rest
  | _ => []

/-- The batched MAC-check gate of `open_authenticated_batch`
(`src/algebra/authenticated_stark_point.rs` lines 293-307): remove the MAC
key share from the front of the arguments, then run the per-element loop. -/
def mac_check_gate_batch : List ResultValue → List ResultValue
  | [] => []
  | mac_key :: rest => (mac_check_loop mac_key.toScalar rest).map .Point

/-- The izip loop of the batched commitment-check gate
(`src/algebra/authenticated_stark_point.rs` lines 350-364): zip the four
sequences and emit `Scalar::from(verify_mac_check(..))` element-wise,
truncating at the shortest sequence as `izip!` does. -/
def verify_loop (H : StarkPoint → Scalar → Scalar) :
    List StarkPoint → List StarkPoint → List Scalar → List Scalar →
    List ResultValue
  | m :: ms, pm :: pms, b :: bs, c :: cs =>
      .Scalar (Scalar.ofBool (verify_mac_check H m pm c b))
        :: verify_loop H ms pms bs cs
  | _, _, _, _ => []

/-- The batched commitment-check gate of `open_authenticated_batch`
(`src/algebra/authenticated_stark_point.rs` lines 340-368): drain the first
`n` arguments as this party's MAC-check shares, then read the peer's batch
of MAC-check shares, blinders and commitments, and verify element-wise. -/
def commitment_check_gate_batch (H : StarkPoint → Scalar → Scalar) (n : Nat)
    (args : List ResultValue) : List ResultValue :=
  let my_comms := (args.take n).map ResultValue.toPoint
  let rest := args.drop n
  let peer_mac_checks := (rest.getD 0 (.Scalar 0)).toPointList
  let peer_blinders := (rest.getD 1 (.Scalar 0)).toScalarList
  let peer_comms := (rest.getD 2 (.Scalar 0)).toScalarList
  verify_loop H my_comms peer_mac_checks peer_blinders peer_comms

/-- The value-level composition of `open_authenticated_batch`
(`src/algebra/authenticated_stark_point.rs` lines 271-380): an empty batch
returns immediately; otherwise the MAC-check dependencies are the MAC key
followed by `[opened_value, public_modifier, mac]` per element, one batched
MAC-check gate computes the check shares, the commit-then-reveal exchange
delivers the peer's batches, one batched commitment-check gate verifies, and
the opened values are zipped with the check scalars into open results. -/
def open_authenticated_batch (H : StarkPoint → Scalar → Scalar)
    (mac_key_share : Scalar) (values : List AuthOpenInput) :
    List (Except MpcError StarkPoint) :=
  if values.isEmpty then [] else
  let n := values.length
  let mac_check_deps := ResultValue.Scalar mac_key_share ::
    values.flatMap (fun i => [.Point i.value, .Point i.modifier, .Point i.mac])
  let mac_checks := mac_check_gate_batch mac_check_deps
  let mac_check_gate_args := mac_checks ++
    [.PointBatch (values.map (·.peer_mac_check)),
     .ScalarBatch (values.map (·.peer_blinder)),
     .ScalarBatch (values.map (·.peer_commitment))]
  let commitment_checks := commitment_check_gate_batch H n mac_check_gate_args
  List.zipWith (fun i check => pollOpenResult i.value check.toScalar)
    values commitment_checks

end AuthenticatedStarkPointResult

/-- The first party, `PARTY0` of `src/lib.rs`. -/
def PARTY0 : Nat := 0

/-- The second party, `PARTY1` of `src/lib.rs`. -/
def PARTY1 : Nat := 1

/-- One party's view of an `AuthenticatedStarkPointResult`
(`src/algebra/authenticated_stark_point.rs` lines 37-49), at the level of
the values the three result handles resolve to: the party's additive share,
its additive MAC share, and the public modifier. -/
structure AuthPoint where
  /-- The local secret share of the underlying authenticated point -/
  share : StarkPoint
  /-- The local share of the SPDZ MAC of the value -/
  mac : StarkPoint
  /-- The public modifier tracking public additions and subtractions -/
  public_modifier : StarkPoint
deriving DecidableEq, Repr

namespace AuthPoint

/-- The flattening used to build gate arguments from an authenticated point,
`AuthenticatedStarkPointResult::ids`
(`src/algebra/authenticated_stark_point.rs` lines 135-137):
`[share, mac, public_modifier]`. -/
def ids (x : AuthPoint) : List ResultValue :=
  [.Point x.share, .Point x.mac, .Point x.public_modifier]

end AuthPoint

namespace AuthenticatedStarkPointResult

/-- The re-chunking of a flat list of gate outputs into authenticated
points, `AuthenticatedStarkPointResult::from_flattened_iterator`
(`src/algebra/authenticated_stark_point.rs` lines 164-176): consecutive
chunks `[share, mac, public_modifier]`. -/
def from_flattened : List ResultValue → List AuthPoint
  | share :: mac :: modifier :: rest =>
      { share := share.toPoint, mac := mac.toPoint,
        public_modifier := modifier.toPoint } :: from_flattened rest
  | _ => []

/-- Addition of a public point to an authenticated point,
`Add<&StarkPoint> for &AuthenticatedStarkPointResult`
(`src/algebra/authenticated_stark_point.rs` lines 434-455): party 0 adds the
public value to its share while the other party adds the curve identity (a
fresh no-op gate for graph-shape symmetry); the MAC is cloned; the public
modifier has the public value subtracted. -/
def add_public (party_id : Nat) (x : AuthPoint) (other : StarkPoint) :
    AuthPoint :=
  let new_share := if party_id = PARTY0 then
    x.share + other
  else
    x.share + StarkPoint.identity
  let new_modifier := x.public_modifier - other
  { share := new_share, mac := x.mac, public_modifier := new_modifier }

/-- The per-chunk loop of the batched public addition gate
(`src/algebra/authenticated_stark_point.rs` lines 582-601): zip the chunks
`[share, mac, modifier]` with the public values; party 0 pushes
`share + public`, other parties push `share` unchanged; then push the MAC
unchanged and `modifier - public`. -/
def batch_add_public_loop (party_id : Nat) :
    List ResultValue → List ResultValue → List ResultValue
  | a_share :: a_mac :: a_modifier :: a_rest, b_val :: b_rest =>
      (if party_id = PARTY0 then
        ResultValue.Point (a_share.toPoint + b_val.toPoint)
      else
        ResultValue.Point a_share.toPoint)
      :: .Point a_mac.toPoint
      :: .Point (a_modifier.toPoint - b_val.toPoint)
      :: batch_add_public_loop party_id a_rest b_rest
  | _, _ => []

/-- The batched public addition gate
(`src/algebra/authenticated_stark_point.rs` lines 572-605): drain the first
`3 * n` arguments as the flattened authenticated points, the rest are the
public values, then run the per-chunk loop. -/
def batch_add_public_gate (party_id n : Nat) (args : List ResultValue) :
    List ResultValue :=
  let a_vals := args.take (3 * n)
  let b_vals := args.drop (3 * n)
  batch_add_public_loop party_id a_vals b_vals

/-- `AuthenticatedStarkPointResult::batch_add_public`
(`src/algebra/authenticated_stark_point.rs` lines 550-608): the gate
arguments are the flattened authenticated points followed by the public
values; one batched gate computes all components, re-chunked into
authenticated points. -/
def batch_add_public (party_id : Nat) (a : List AuthPoint)
    (b : List StarkPoint) : List AuthPoint :=
  if a.isEmpty then [] else
  let n := a.length
  let all_args := a.flatMap AuthPoint.ids ++ b.map ResultValue.Point
  from_flattened (batch_add_public_gate party_id n all_args)

/-- Subtraction of two authenticated points,
`Sub<&AuthenticatedStarkPointResult> for &AuthenticatedStarkPointResult`
(`src/algebra/authenticated_stark_point.rs` lines 663-677): shares and MACs
subtract; the public modifier of the left operand is cloned. -/
def sub (x y : AuthPoint) : AuthPoint :=
  { share := x.share - y.share, mac := x.mac - y.mac,
    public_modifier := x.public_modifier }

/-- The per-chunk loop of the batched subtraction gate
(`src/algebra/authenticated_stark_point.rs` lines 704-719): zip the two
chunk streams and push the difference of every component, including the
public modifiers. -/
def batch_sub_loop : List ResultValue → List ResultValue → List ResultValue
  | a_share :: a_mac :: a_modifier :: a_rest,
    b_share :: b_mac :: b_modifier :: b_rest =>
      ResultValue.Point (a_share.toPoint - b_share.toPoint)
      :: .Point (a_mac.toPoint - b_mac.toPoint)
      :: .Point (a_modifier.toPoint - b_modifier.toPoint)
      :: batch_sub_loop a_rest b_rest
  | _, _ => []

/-- The batched subtraction gate
(`src/algebra/authenticated_stark_point.rs` lines 695-723): drain the first
half of the arguments as the left flattened points, the rest are the right
flattened points, then run the per-chunk loop. -/
def batch_sub_gate (args : List ResultValue) : List ResultValue :=
  let len := args.length
  let a_vals := args.take (len / 2)
  let b_vals := args.drop (len / 2)
  batch_sub_loop a_vals b_vals

/-- `AuthenticatedStarkPointResult::batch_sub`
(`src/algebra/authenticated_stark_point.rs` lines 682-726): the gate
arguments are both batches flattened in sequence; one batched gate computes
all components, re-chunked into authenticated points. -/
def batch_sub (a b : List AuthPoint) : List AuthPoint :=
  if a.isEmpty then [] else
  let all_args := a.flatMap AuthPoint.ids ++ b.flatMap AuthPoint.ids
  from_flattened (batch_sub_gate all_args)

/-- Unary negation of an authenticated point,
`Neg for &AuthenticatedStarkPointResult`
(`src/algebra/authenticated_stark_point.rs` lines 792-806): share and MAC
are negated; the public modifier is cloned unchanged. -/
def neg (x : AuthPoint) : AuthPoint :=
  { share := -x.share, mac := -x.mac, public_modifier := x.public_modifier }

/-- The batched negation gate
(`src/algebra/authenticated_stark_point.rs` lines 820-830): map point
negation over every argument, the flattened public modifiers included. -/
def batch_neg_gate (args : List ResultValue) : List ResultValue :=
  args.map (fun v => .Point (-v.toPoint))

/-- `AuthenticatedStarkPointResult::batch_neg`
(`src/algebra/authenticated_stark_point.rs` lines 811-833): the gate
arguments are the flattened authenticated points; one batched gate negates
every value, re-chunked into authenticated points. -/
def batch_neg (a : List AuthPoint) : List AuthPoint :=
  if a.isEmpty then [] else
  from_flattened (batch_neg_gate (a.flatMap AuthPoint.ids))

/-- Subtraction of a public point from an authenticated point,
`Sub<&StarkPoint> for &AuthenticatedStarkPointResult`
(`src/algebra/authenticated_stark_point.rs` lines 613-634): the mirror of
`add_public` with the public value negated in the appropriate places. -/
def sub_public (party_id : Nat) (x : AuthPoint) (other : StarkPoint) :
    AuthPoint :=
  let new_share := if party_id = PARTY0 then
    x.share - other
  else
    x.share - StarkPoint.identity
  let new_modifier := x.public_modifier + other
  { share := new_share, mac := x.mac, public_modifier := new_modifier }

/-- Addition of two authenticated points,
`Add<&AuthenticatedStarkPointResult> for &AuthenticatedStarkPointResult`
(`src/algebra/authenticated_stark_point.rs` lines 484-498): all three
components add. -/
def add (x y : AuthPoint) : AuthPoint :=
  { share := x.share + y.share, mac := x.mac + y.mac,
    public_modifier := x.public_modifier + y.public_modifier }

/-- Multiplication of an authenticated point by a public scalar,
`Mul<&Scalar> for &AuthenticatedStarkPointResult`
(`src/algebra/authenticated_stark_point.rs` lines 838-853): all three
components are multiplied by the scalar.  The per-party effect of the
underlying `MpcStarkPointResult * Scalar` is modelled from the spec
(`algebra/mpc_stark_point.rs` is not under `src/`; §4.5 prescribes
componentwise scalar multiplication of the share). -/
def mul_public (x : AuthPoint) (other : Scalar) : AuthPoint :=
  { share := x.share * other, mac := x.mac * other,
    public_modifier := x.public_modifier * other }

/-- The Beaver multiplication of an authenticated point by an authenticated
scalar, `Mul<&AuthenticatedScalarResult> for &AuthenticatedStarkPointResult`
(`src/algebra/authenticated_stark_point.rs` lines 876-896), written at the
level of cleartext values: drawing the authenticated triple `(a, b, c)`,
the two openings `d = open(rhs - a)` and `eG = open(lhs - generator * b)`
resolve, under honest execution, to the cleartext differences (the opened
value of an authenticated difference is the difference of the cleartexts),
and the returned value is the combination
`d * eG + d * (generator * b) + a * eG + c * generator`. -/
def beaver_mul (lhs : StarkPoint) (rhs a b c : Scalar) : StarkPoint :=
  let generator := StarkPoint.generator
  let masked_rhs := rhs - a
  let masked_lhs := lhs - generator * b
  let eG_open := masked_lhs
  let d_open := masked_rhs
  d_open * eG_open + d_open * (generator * b) + a * eG_open + c * generator

end AuthenticatedStarkPointResult

namespace MpcFabric

/-- The sharing performed by the owning party in `MpcFabric::share_scalar`
(`src/fabric.rs` lines 577-597): sample a random scalar `random`, keep
`val - random` and send `random` to the counterparty.  Returned as
`(my_share, their_share)` exactly as the source binds them. -/
def share_scalar (val random : Scalar) : Scalar × Scalar :=
  (val - random, random)

/-- The sharing performed by the owning party in `MpcFabric::share_point`
(`src/fabric.rs` lines 631-652): sample a random scalar, multiply it by the
generator to obtain a random point, keep `val - random_point` and send
`random_point`.  Returned as `(my_share, their_share)`. -/
def share_point (val : StarkPoint) (random : Scalar) :
    StarkPoint × StarkPoint :=
  let random_point := random * StarkPoint.generator
  (val - random_point, random_point)

end MpcFabric

/-- The two parties' additive shares of a secret-shared scalar, paired with
the cleartext value they stand for.  The constructors are exactly the ways
the source constructs or transforms the share component of an authenticated
scalar: secret sharing by either party (`MpcFabric::share_scalar`,
`src/fabric.rs` lines 577-597) and the share-component action of the local
gates of the authenticated algebra, per §4.4 of the spec; the scalar gate
bodies live in `algebra/authenticated_scalar.rs`, which is not under
`src/`, and are modelled from the spec (public addition touches only party
0's share, the other party allocates a no-op gate; addition, subtraction
and negation act share-wise; public multiplication scales both shares). -/
inductive TracksScalar : Scalar → Scalar × Scalar → Prop
  /-- Party 0 shares `v`: it keeps the first component and sends the second -/
  | shared0 (v r : Scalar) :
      TracksScalar v (MpcFabric.share_scalar v r)
  /-- Party 1 shares `v`: party 0 receives the sent share -/
  | shared1 (v r : Scalar) :
      TracksScalar v ((MpcFabric.share_scalar v r).2, (MpcFabric.share_scalar v r).1)
  /-- Public addition of `c`: party 0 adds `c`, party 1 adds zero -/
  | add_public (v c : Scalar) (s : Scalar × Scalar) :
      TracksScalar v s → TracksScalar (v + c) (s.1 + c, s.2 + 0)
  /-- Public subtraction of `c`: party 0 subtracts `c`, party 1 subtracts zero -/
  | sub_public (v c : Scalar) (s : Scalar × Scalar) :
      TracksScalar v s → TracksScalar (v - c) (s.1 - c, s.2 - 0)
  /-- Addition of two authenticated scalars: shares add -/
  | add (v w : Scalar) (s t : Scalar × Scalar) :
      TracksScalar v s → TracksScalar w t →
      TracksScalar (v + w) (s.1 + t.1, s.2 + t.2)
  /-- Subtraction of two authenticated scalars: shares subtract -/
  | sub (v w : Scalar) (s t : Scalar × Scalar) :
      TracksScalar v s → TracksScalar w t →
      TracksScalar (v - w) (s.1 - t.1, s.2 - t.2)
  /-- Negation: both shares negate -/
  | neg (v : Scalar) (s : Scalar × Scalar) :
      TracksScalar v s → TracksScalar (-v) (-s.1, -s.2)
  /-- Public multiplication by `c`: both shares scale -/
  | mul_public (v c : Scalar) (s : Scalar × Scalar) :
      TracksScalar v s → TracksScalar (v * c) (s.1 * c, s.2 * c)

/-- The two parties' views of a secret-shared authenticated point, paired
with the cleartext point they stand for.  The constructors are the ways the
source constructs or transforms authenticated points: secret sharing by
either party (`MpcFabric::share_point`, `src/fabric.rs` lines 631-652;
the MAC and modifier components produced by
`AuthenticatedStarkPointResult::new_shared` are abstracted since only the
share components matter for the share-sum invariant) and the point-layer
gates of `src/algebra/authenticated_stark_point.rs`, applied with the
correct party id on each side. -/
inductive TracksPoint : StarkPoint → AuthPoint × AuthPoint → Prop
  /-- Party 0 shares `v`: it keeps `v - rG` and sends `rG`; the MAC and
  modifier components on each side are arbitrary here -/
  | shared0 (v : StarkPoint) (r : Scalar) (m0 m1 p0 p1 : StarkPoint) :
      TracksPoint v
        (⟨(MpcFabric.share_point v r).1, m0, p0⟩,
         ⟨(MpcFabric.share_point v r).2, m1, p1⟩)
  /-- Party 1 shares `v`: party 0 receives the sent share -/
  | shared1 (v : StarkPoint) (r : Scalar) (m0 m1 p0 p1 : StarkPoint) :
      TracksPoint v
        (⟨(MpcFabric.share_point v r).2, m0, p0⟩,
         ⟨(MpcFabric.share_point v r).1, m1, p1⟩)
  /-- Public addition of `c`: each party applies its branch of the `Add`
  implementation -/
  | add_public (v c : StarkPoint) (x : AuthPoint × AuthPoint) :
      TracksPoint v x →
      TracksPoint (v + c)
        (AuthenticatedStarkPointResult.add_public PARTY0 x.1 c,
         AuthenticatedStarkPointResult.add_public PARTY1 x.2 c)
  /-- Public subtraction of `c` -/
  | sub_public (v c : StarkPoint) (x : AuthPoint × AuthPoint) :
      TracksPoint v x →
      TracksPoint (v - c)
        (AuthenticatedStarkPointResult.sub_public PARTY0 x.1 c,
         AuthenticatedStarkPointResult.sub_public PARTY1 x.2 c)
  /-- Addition of two authenticated points -/
  | add (v w : StarkPoint) (x y : AuthPoint × AuthPoint) :
      TracksPoint v x → TracksPoint w y →
      TracksPoint (v + w)
        (AuthenticatedStarkPointResult.add x.1 y.1,
         AuthenticatedStarkPointResult.add x.2 y.2)
  /-- Subtraction of two authenticated points -/
  | sub (v w : StarkPoint) (x y : AuthPoint × AuthPoint) :
      TracksPoint v x → TracksPoint w y →
      TracksPoint (v - w)
        (AuthenticatedStarkPointResult.sub x.1 y.1,
         AuthenticatedStarkPointResult.sub x.2 y.2)
  /-- Unary negation -/
  | neg (v : StarkPoint) (x : AuthPoint × AuthPoint) :
      TracksPoint v x →
      TracksPoint (-v)
        (AuthenticatedStarkPointResult.neg x.1,
         AuthenticatedStarkPointResult.neg x.2)
  /-- Public multiplication by a scalar `c` -/
  | mul_public (v : StarkPoint) (c : Scalar) (x : AuthPoint × AuthPoint) :
      TracksPoint v x →
      TracksPoint (v * c)
        (AuthenticatedStarkPointResult.mul_public x.1 c,
         AuthenticatedStarkPointResult.mul_public x.2 c)

/-- An identifier for a result, `ResultId` of `src/fabric/result.rs`. -/
abbrev ResultId := Nat

/-- The result id that is hardcoded to zero (`src/fabric.rs` line 55). -/
def RESULT_ZERO : ResultId := 0

/-- The result id that is hardcoded to one (`src/fabric.rs` line 57). -/
def RESULT_ONE : ResultId := 1

/-- The result id that is hardcoded to the curve identity point
(`src/fabric.rs` line 59). -/
def RESULT_IDENTITY : ResultId := 2

/-- The number of constant results allocated in the fabric
(`src/fabric.rs` line 62). -/
def N_CONSTANT_RESULTS : Nat := 3

namespace FabricInner

/-- The allocation-relevant state of `FabricInner` (`src/fabric.rs` lines
184-201): the monotone result-id counter and the id-keyed result buffer.
The buffer is modelled as an association list in which a later insertion
shadows an earlier one at the same id, as an overwriting buffer would. -/
structure State where
  /-- The next identifier to assign to a result -/
  next_result_id : Nat
  /-- The completed results, most recent insertion first -/
  results : List (ResultId × ResultValue)

/-- Look up the result stored at an id, preferring the most recent
insertion. -/
def State.lookup (s : State) (id : ResultId) : Option ResultValue :=
  (s.results.find? (fun e => e.1 = id)).map (·.2)

/-- The state built by `FabricInner::new` (`src/fabric.rs` lines 211-248):
the scalar zero, the scalar one and the curve identity are inserted at the
three constant ids, and the result-id counter starts at
`N_CONSTANT_RESULTS`. -/
def new : State :=
  { next_result_id := N_CONSTANT_RESULTS,
    results :=
      [(RESULT_ZERO, .Scalar 0), (RESULT_ONE, .Scalar 1),
       (RESULT_IDENTITY, .Point StarkPoint.identity)] }

/-- Increment the result-id counter and return the existing value,
`FabricInner::new_result_id` (`src/fabric.rs` lines 260-262). -/
def new_result_id (s : State) : ResultId × State :=
  (s.next_result_id, { s with next_result_id := s.next_result_id + 1 })

/-- Allocate a new plaintext value, `FabricInner::allocate_value`
(`src/fabric.rs` lines 289-298): draw a fresh id and insert the value
there. -/
def allocate_value (s : State) (value : ResultValue) : ResultId × State :=
  let r := new_result_id s
  (r.1, { r.2 with results := (r.1, value) :: r.2.results })

/-- Allocate a secret-shared value, `FabricInner::allocate_shared_value`
(`src/fabric.rs` lines 301-328): draw a fresh id, insert the local share
there, and enqueue the counterparty's share on the network (the outbound
payload does not change the local buffer). -/
def allocate_shared_value (s : State) (my_share their_share : ResultValue) :
    ResultId × State :=
  let r := new_result_id s
  (r.1, { r.2 with results := (r.1, my_share) :: r.2.results })

/-- Allocate a slot for a value received from the peer,
`FabricInner::receive_value` (`src/fabric.rs` lines 334-336): just a fresh
id. -/
def receive_value (s : State) : ResultId × State :=
  new_result_id s

/-- Allocate the result ids of a new in-flight operation,
`FabricInner::new_op` (`src/fabric.rs` lines 343-371): `output_arity`
fresh ids; the operation itself is forwarded to the executor and fulfils
those same ids later. -/
def new_op (s : State) (output_arity : Nat) : List ResultId × State :=
  (List.range output_arity).foldl
    (fun (acc : List ResultId × State) _ =>
      let r := new_result_id acc.2
      (acc.1 ++ [r.1], r.2))
    ([], s)

/-- One allocation or gate-construction primitive of the fabric, each
carrying the data that affects the allocation state. -/
inductive Event where
  /-- `allocate_value` with the given value -/
  | alloc_value (value : ResultValue)
  /-- `allocate_shared_value` with the given shares -/
  | alloc_shared (my_share their_share : ResultValue)
  /-- `receive_value` -/
  | recv
  /-- `new_op` with the given output arity -/
  | op (output_arity : Nat)

/-- Apply one primitive to the state, discarding the returned ids. -/
def step (s : State) : Event → State
  | .alloc_value v => (allocate_value s v).2
  | .alloc_shared my their => (allocate_shared_value s my their).2
  | .recv => (receive_value s).2
  | .op arity => (new_op s arity).2

/-- The result ids returned by one primitive applied in a state. -/
def stepIds (s : State) : Event → List ResultId
  | .alloc_value v => [(allocate_value s v).1]
  | .alloc_shared my their => [(allocate_shared_value s my their).1]
  | .recv => [(receive_value s).1]
  | .op arity => (new_op s arity).1

/-- The state after running a sequence of primitives from fabric
construction. -/
def run (trace : List Event) : State :=
  trace.foldl step new

end FabricInner

/-!
Helper lemmas about the coercions and the algebra, shared by the claim
theorems below.
-/

@[simp] theorem toScalar_scalar (s : Scalar) :
    (ResultValue.Scalar s).toScalar = s := rfl

@[simp] theorem toPoint_point (p : StarkPoint) :
    (ResultValue.Point p).toPoint = p := rfl

@[simp] theorem toScalarList_batch (s : List Scalar) :
    (ResultValue.ScalarBatch s).toScalarList = s := rfl

@[simp] theorem toPointList_batch (p : List StarkPoint) :
    (ResultValue.PointBatch p).toPointList = p := rfl

theorem ofBool_eq_one_iff (b : Bool) : Scalar.ofBool b = 1 ↔ b = true := by
  cases b <;> simp [Scalar.ofBool]

theorem ofBool_eq_zero_iff (b : Bool) : Scalar.ofBool b = 0 ↔ b = false := by
  cases b <;> simp [Scalar.ofBool]

theorem verify_mac_check_true_iff (H : StarkPoint → Scalar → Scalar)
    (my_mac peer_mac : StarkPoint) (peer_comm peer_blinder : Scalar) :
    AuthenticatedStarkPointResult.verify_mac_check H my_mac peer_mac
        peer_comm peer_blinder = true ↔
      (HashCommitment.verify H
          { value := peer_mac, blinder := peer_blinder,
            commitment := peer_comm } = true
        ∧ my_mac + peer_mac = StarkPoint.identity) := by
  unfold AuthenticatedStarkPointResult.verify_mac_check
  split_ifs with h1 h2 <;> simp_all

theorem point_mul_comm (p : StarkPoint) (s : Scalar) : p * s = s * p := by
  apply StarkPoint.ext_dlog
  simp [mul_comm]

/-- C1: For every authenticated Stark point, awaiting the
`AuthenticatedStarkPointOpenResult` returned by `open_authenticated`
yields `Ok` of the opened value exactly when the MAC-check scalar equals 1,
and `Err(AuthenticationError)` otherwise; the check scalar is 1 exactly when
the peer's hash commitment verifies against the revealed MAC-check share and
blinder, and the two parties' MAC-check shares sum to the curve identity
point, and 0 otherwise. -/
theorem claim_C1 (H : StarkPoint → Scalar → Scalar) (v : StarkPoint)
    (my_mac peer_mac : StarkPoint) (peer_blinder peer_comm : Scalar) :
    (∀ check : Scalar,
        (pollOpenResult v check = .ok v ↔ check = 1)
      ∧ (pollOpenResult v check = .error .AuthenticationError ↔ check ≠ 1))
    ∧ ((AuthenticatedStarkPointResult.commitment_check_gate H
          [.Point my_mac, .Point peer_mac, .Scalar peer_blinder,
           .Scalar peer_comm]).toScalar = 1
        ↔ (HashCommitment.verify H
              { value := peer_mac, blinder := peer_blinder,
                commitment := peer_comm } = true
            ∧ my_mac + peer_mac = StarkPoint.identity))
    ∧ ((AuthenticatedStarkPointResult.commitment_check_gate H
          [.Point my_mac, .Point peer_mac, .Scalar peer_blinder,
           .Scalar peer_comm]).toScalar = 0
        ↔ ¬(HashCommitment.verify H
              { value := peer_mac, blinder := peer_blinder,
                commitment := peer_comm } = true
            ∧ my_mac + peer_mac = StarkPoint.identity)) := by
  refine ⟨fun check => ⟨?_, ?_⟩, ?_, ?_⟩
  · unfold pollOpenResult
    split_ifs with h <;> simp_all
  · unfold pollOpenResult
    split_ifs with h <;> simp_all
  · rw [show (AuthenticatedStarkPointResult.commitment_check_gate H
        [.Point my_mac, .Point peer_mac, .Scalar peer_blinder,
         .Scalar peer_comm]).toScalar
      = Scalar.ofBool (AuthenticatedStarkPointResult.verify_mac_check H
          my_mac peer_mac peer_comm peer_blinder) from rfl]
    rw [ofBool_eq_one_iff, verify_mac_check_true_iff]
  · rw [show (AuthenticatedStarkPointResult.commitment_check_gate H
        [.Point my_mac, .Point peer_mac, .Scalar peer_blinder,
         .Scalar peer_comm]).toScalar
      = Scalar.ofBool (AuthenticatedStarkPointResult.verify_mac_check H
          my_mac peer_mac peer_comm peer_blinder) from rfl]
    rw [ofBool_eq_zero_iff]
    rw [← Bool.not_eq_true, not_iff_not, verify_mac_check_true_iff]

theorem mac_check_loop_flatMap (k : Scalar) (values : List AuthOpenInput) :
    AuthenticatedStarkPointResult.mac_check_loop k
        (values.flatMap (fun i =>
          [.Point i.value, .Point i.modifier, .Point i.mac]))
      = values.map (fun i => (k * (i.value + i.modifier) - i.mac : StarkPoint)) := by
  induction values with
  | nil => rfl
  | cons x xs ih =>
      simp only [List.flatMap] at ih
      simp [AuthenticatedStarkPointResult.mac_check_loop, ih]

/-- C2: In `open_authenticated`, and element-wise in
`open_authenticated_batch`, each party's MAC-check share is computed by a
local gate over the ids of the MAC key share, the opened value, the public
modifier and the MAC share, and equals
`mac_key_share * (opened_value + public_modifier) - mac_share`. -/
theorem claim_C2 (k : Scalar) (v m mac : StarkPoint)
    (values : List AuthOpenInput) :
    (AuthenticatedStarkPointResult.mac_check_gate
        [.Scalar k, .Point v, .Point m, .Point mac]).toPoint
      = k * (v + m) - mac
    ∧ AuthenticatedStarkPointResult.mac_check_gate_batch
        (.Scalar k :: values.flatMap (fun i =>
          [.Point i.value, .Point i.modifier, .Point i.mac]))
      = values.map (fun i => .Point (k * (i.value + i.modifier) - i.mac)) := by
  constructor
  · show (v + m) * k - mac = k * (v + m) - mac
    rw [point_mul_comm]
  · rw [show AuthenticatedStarkPointResult.mac_check_gate_batch
        (.Scalar k :: values.flatMap (fun i =>
          [.Point i.value, .Point i.modifier, .Point i.mac]))
      = (AuthenticatedStarkPointResult.mac_check_loop k
          (values.flatMap (fun i =>
            [.Point i.value, .Point i.modifier, .Point i.mac]))).map .Point
      from rfl]
    rw [mac_check_loop_flatMap]
    simp

/-- C5: Multiplying an authenticated point `lhs` by an authenticated scalar
`rhs` draws one authenticated Beaver triple `(a, b, c)`, opens the masked
values `d = open(rhs - a)` and `eG = open(lhs - b*G)`, and returns the
combination `d*eG + d*(bG) + a*eG + c*G`; under honest execution the opened
product equals the product of the cleartext scalar and point. -/
theorem claim_C5 (lhs : StarkPoint) (rhs a b c : Scalar)
    (h : c = a * b) :
    AuthenticatedStarkPointResult.beaver_mul lhs rhs a b c = rhs * lhs := by
  subst h
  unfold AuthenticatedStarkPointResult.beaver_mul
  apply StarkPoint.ext_dlog
  simp [StarkPoint.generator]
  ring

/-- Witness for C5 at a concrete input: the triple `(2, 5, 10)` and
`lhs = 3*G`, `rhs = 7`. -/
theorem claim_C5_witness :
    (10 : Scalar) = 2 * 5
    ∧ AuthenticatedStarkPointResult.beaver_mul ⟨3⟩ 7 2 5 10
        = (7 : Scalar) * (⟨3⟩ : StarkPoint) :=
  ⟨by decide, claim_C5 ⟨3⟩ 7 2 5 10 (by decide)⟩

/-- C6: For every authenticated point `x`, unary negation produces
`share = -x.share` and `mac = -x.mac` while the `public_modifier` component
is left unchanged (a clone of `x.public_modifier`, not negated). -/
theorem claim_C6 (x : AuthPoint) :
    (AuthenticatedStarkPointResult.neg x).share = -x.share
    ∧ (AuthenticatedStarkPointResult.neg x).mac = -x.mac
    ∧ (AuthenticatedStarkPointResult.neg x).public_modifier
        = x.public_modifier :=
  ⟨rfl, rfl, rfl⟩

theorem length_flatMap_ids (a : List AuthPoint) :
    (a.flatMap AuthPoint.ids).length = 3 * a.length := by
  induction a with
  | nil => rfl
  | cons x xs ih => simp [AuthPoint.ids, ih]; ring

theorem add_identity (p : StarkPoint) : p + StarkPoint.identity = p := by
  apply StarkPoint.ext_dlog
  simp

theorem sub_identity (p : StarkPoint) : p - StarkPoint.identity = p := by
  apply StarkPoint.ext_dlog
  simp

theorem batch_add_public_loop_spec (party_id : Nat) (a : List AuthPoint)
    (b : List StarkPoint) :
    AuthenticatedStarkPointResult.from_flattened
        (AuthenticatedStarkPointResult.batch_add_public_loop party_id
          (a.flatMap AuthPoint.ids) (b.map ResultValue.Point))
      = List.zipWith (AuthenticatedStarkPointResult.add_public party_id) a b := by
  induction a generalizing b with
  | nil =>
      cases b <;> rfl
  | cons x xs ih =>
      cases b with
      | nil => rfl
      | cons c cs =>
          have ih2 := ih cs
          simp only [List.flatMap] at ih2
          by_cases hp : party_id = PARTY0
          · subst hp
            simp [AuthPoint.ids,
              AuthenticatedStarkPointResult.batch_add_public_loop,
              AuthenticatedStarkPointResult.from_flattened,
              AuthenticatedStarkPointResult.add_public, ih2]
          · simp [AuthPoint.ids,
              AuthenticatedStarkPointResult.batch_add_public_loop,
              AuthenticatedStarkPointResult.from_flattened,
              AuthenticatedStarkPointResult.add_public, hp, ih2,
              add_identity]

/-- C4: For every authenticated point `x` and public point `c`, the addition
`x + c` produces `share = x.share + c` on party 0 and
`share = x.share + identity` (a fresh no-op gate) on party 1, leaves the
`mac` component unchanged, and produces
`public_modifier = x.public_modifier - c`; the batched form
`batch_add_public` computes the same three components element-wise. -/
theorem claim_C4 (x : AuthPoint) (c : StarkPoint) (a : List AuthPoint)
    (b : List StarkPoint) :
    (AuthenticatedStarkPointResult.add_public PARTY0 x c).share = x.share + c
    ∧ (AuthenticatedStarkPointResult.add_public PARTY1 x c).share
        = x.share + StarkPoint.identity
    ∧ (∀ party_id,
        (AuthenticatedStarkPointResult.add_public party_id x c).mac = x.mac)
    ∧ (∀ party_id,
        (AuthenticatedStarkPointResult.add_public party_id x c).public_modifier
          = x.public_modifier - c)
    ∧ (∀ party_id,
        AuthenticatedStarkPointResult.batch_add_public party_id a b
          = List.zipWith (AuthenticatedStarkPointResult.add_public party_id)
              a b) := by
  refine ⟨rfl, rfl, fun _ => rfl, fun _ => rfl, fun party_id => ?_⟩
  simp only [AuthenticatedStarkPointResult.batch_add_public]
  split_ifs with h
  · rw [List.isEmpty_iff] at h
    simp [h]
  · simp only [AuthenticatedStarkPointResult.batch_add_public_gate]
    rw [List.take_left' (by rw [length_flatMap_ids]),
        List.drop_left' (by rw [length_flatMap_ids])]
    exact batch_add_public_loop_spec party_id a b

theorem batch_neg_gate_spec (a : List AuthPoint) :
    AuthenticatedStarkPointResult.from_flattened
        (AuthenticatedStarkPointResult.batch_neg_gate (a.flatMap AuthPoint.ids))
      = a.map (fun x =>
          { share := -x.share, mac := -x.mac,
            public_modifier := -x.public_modifier }) := by
  induction a with
  | nil => rfl
  | cons x xs ih =>
      simp only [List.flatMap,
        AuthenticatedStarkPointResult.batch_neg_gate] at ih ⊢
      simp only [List.map_cons, List.flatten_cons, List.map_append]
      simp only [AuthPoint.ids, List.map_cons, List.map_nil,
        List.cons_append, List.nil_append, List.append_eq,
        AuthenticatedStarkPointResult.from_flattened, toPoint_point]
      rw [ih]

/-- Counterexample for C9 as stated: on the authenticated point whose
share, MAC and public modifier all equal the generator, `batch_neg` negates
the public modifier while the unary negation operator leaves it unchanged,
so the two results differ. -/
theorem claim_C9_counterexample :
    AuthenticatedStarkPointResult.batch_neg
        [{ share := StarkPoint.generator, mac := StarkPoint.generator,
           public_modifier := StarkPoint.generator }]
      ≠ [AuthenticatedStarkPointResult.neg
          { share := StarkPoint.generator, mac := StarkPoint.generator,
            public_modifier := StarkPoint.generator }] := by
  decide

/-- C9 (amended): For every non-empty batch of authenticated points,
`batch_neg` returns element-wise a result whose share and mac equal those
produced by the unary negation operator, but whose `public_modifier` is the
negation of the element's `public_modifier`, whereas the unary operator
leaves the modifier unchanged; the two agree exactly on elements whose
modifier is the curve identity. -/
theorem claim_C9 (a : List AuthPoint) :
    AuthenticatedStarkPointResult.batch_neg a
      = a.map (fun x =>
          { share := (AuthenticatedStarkPointResult.neg x).share,
            mac := (AuthenticatedStarkPointResult.neg x).mac,
            public_modifier := -x.public_modifier }) := by
  simp only [AuthenticatedStarkPointResult.batch_neg]
  split_ifs with h
  · rw [List.isEmpty_iff] at h
    simp [h]
  · exact batch_neg_gate_spec a

theorem batch_sub_loop_spec (a : List AuthPoint) (b : List AuthPoint)
    (h : a.length = b.length) :
    AuthenticatedStarkPointResult.from_flattened
        (AuthenticatedStarkPointResult.batch_sub_loop
          (a.flatMap AuthPoint.ids) (b.flatMap AuthPoint.ids))
      = List.zipWith (fun x y =>
          AuthPoint.mk (x.share - y.share) (x.mac - y.mac)
            (x.public_modifier - y.public_modifier)) a b := by
  induction a generalizing b with
  | nil =>
      cases b with
      | nil => rfl
      | cons y ys => simp at h
  | cons x xs ih =>
      cases b with
      | nil => simp at h
      | cons y ys =>
          simp only [List.length_cons, Nat.add_right_cancel_iff] at h
          have ih2 := ih ys h
          simp only [List.flatMap] at ih2
          simp [AuthPoint.ids, AuthenticatedStarkPointResult.batch_sub_loop,
            AuthenticatedStarkPointResult.from_flattened, ih2]

/-- Counterexample for C10 as stated: subtracting the authenticated point
whose components all equal the generator from itself, `batch_sub` yields
the identity as the public modifier (the difference of the two modifiers)
while the binary subtraction operator clones the left operand's modifier,
so the two results differ. -/
theorem claim_C10_counterexample :
    AuthenticatedStarkPointResult.batch_sub
        [{ share := StarkPoint.generator, mac := StarkPoint.generator,
           public_modifier := StarkPoint.generator }]
        [{ share := StarkPoint.generator, mac := StarkPoint.generator,
           public_modifier := StarkPoint.generator }]
      ≠ [AuthenticatedStarkPointResult.sub
          { share := StarkPoint.generator, mac := StarkPoint.generator,
            public_modifier := StarkPoint.generator }
          { share := StarkPoint.generator, mac := StarkPoint.generator,
            public_modifier := StarkPoint.generator }] := by
  decide

/-- C10 (amended): For every pair of equal-length batches `a` and `b` of
authenticated points, `batch_sub` returns element-wise a result whose share
and mac equal those produced by the binary subtraction operator on the
corresponding pair, but whose `public_modifier` is the difference
`a_i.public_modifier - b_i.public_modifier`, whereas the binary operator
clones the left operand's modifier; the two agree exactly when the right
operand's modifier is the curve identity. -/
theorem claim_C10 (a b : List AuthPoint) (h : a.length = b.length) :
    AuthenticatedStarkPointResult.batch_sub a b
      = List.zipWith (fun x y =>
          AuthPoint.mk (AuthenticatedStarkPointResult.sub x y).share
            (AuthenticatedStarkPointResult.sub x y).mac
            (x.public_modifier - y.public_modifier)) a b := by
  simp only [AuthenticatedStarkPointResult.batch_sub]
  split_ifs with he
  · rw [List.isEmpty_iff] at he
    simp [he]
  · simp only [AuthenticatedStarkPointResult.batch_sub_gate]
    have hlen : (a.flatMap AuthPoint.ids ++ b.flatMap AuthPoint.ids).length / 2
        = (a.flatMap AuthPoint.ids).length := by
      rw [List.length_append, length_flatMap_ids, length_flatMap_ids, h]
      omega
    rw [hlen, List.take_left' rfl, List.drop_left' rfl]
    exact batch_sub_loop_spec a b h

/-- C3: For every value `v` shared via `share_scalar` (respectively
`share_point`) by the owning party, the two parties' additive shares sum to
`v`: the sender keeps `v - r` and sends `r` for a freshly sampled random `r`
(a random point for the point layer), so `share0 + share1 = v`, and this
share-sum property holds at every reachable graph point for values
constructed by secret sharing. -/
theorem claim_C3 :
    (∀ (v : Scalar) (s : Scalar × Scalar), TracksScalar v s → s.1 + s.2 = v)
    ∧ (∀ (v : StarkPoint) (x : AuthPoint × AuthPoint),
        TracksPoint v x → x.1.share + x.2.share = v) := by
  constructor
  · intro v s h
    induction h with
    | shared0 v r => simp [MpcFabric.share_scalar]
    | shared1 v r => simp [MpcFabric.share_scalar]
    | add_public v c s _ ih => simp only; linear_combination ih
    | sub_public v c s _ ih => simp only; linear_combination ih
    | add v w s t _ _ ihv ihw => simp only; linear_combination ihv + ihw
    | sub v w s t _ _ ihv ihw => simp only; linear_combination ihv - ihw
    | neg v s _ ih => simp only; linear_combination -ih
    | mul_public v c s _ ih => simp only; linear_combination ih * c
  · intro v x h
    induction h with
    | shared0 v r m0 m1 p0 p1 =>
        apply StarkPoint.ext_dlog
        simp [MpcFabric.share_point]
    | shared1 v r m0 m1 p0 p1 =>
        apply StarkPoint.ext_dlog
        simp [MpcFabric.share_point]
    | add_public v c x _ ih =>
        have h2 := congrArg StarkPoint.dlog ih
        apply StarkPoint.ext_dlog
        simp only [StarkPoint.add_dlog] at h2
        simp [AuthenticatedStarkPointResult.add_public, PARTY0, PARTY1]
        linear_combination h2
    | sub_public v c x _ ih =>
        have h2 := congrArg StarkPoint.dlog ih
        apply StarkPoint.ext_dlog
        simp only [StarkPoint.add_dlog] at h2
        simp [AuthenticatedStarkPointResult.sub_public, PARTY0, PARTY1]
        linear_combination h2
    | add v w x y _ _ ihv ihw =>
        have h2 := congrArg StarkPoint.dlog ihv
        have h3 := congrArg StarkPoint.dlog ihw
        apply StarkPoint.ext_dlog
        simp only [StarkPoint.add_dlog] at h2 h3
        simp [AuthenticatedStarkPointResult.add]
        linear_combination h2 + h3
    | sub v w x y _ _ ihv ihw =>
        have h2 := congrArg StarkPoint.dlog ihv
        have h3 := congrArg StarkPoint.dlog ihw
        apply StarkPoint.ext_dlog
        simp only [StarkPoint.add_dlog] at h2 h3
        simp [AuthenticatedStarkPointResult.sub]
        linear_combination h2 - h3
    | neg v x _ ih =>
        have h2 := congrArg StarkPoint.dlog ih
        apply StarkPoint.ext_dlog
        simp only [StarkPoint.add_dlog] at h2
        simp [AuthenticatedStarkPointResult.neg]
        linear_combination -h2
    | mul_public v c x _ ih =>
        have h2 := congrArg StarkPoint.dlog ih
        apply StarkPoint.ext_dlog
        simp only [StarkPoint.add_dlog] at h2
        simp [AuthenticatedStarkPointResult.mul_public]
        linear_combination h2 * c

/-- Witness for C3 at a concrete sharing: party 0 shares the scalar 7 with
randomness 3, and the two shares sum back to 7. -/
theorem claim_C3_witness :
    TracksScalar 7 (MpcFabric.share_scalar 7 3)
    ∧ (MpcFabric.share_scalar 7 3).1 + (MpcFabric.share_scalar 7 3).2 = 7 :=
  ⟨TracksScalar.shared0 7 3,
   claim_C3.1 7 (MpcFabric.share_scalar 7 3) (TracksScalar.shared0 7 3)⟩

theorem verify_loop_map (H : StarkPoint → Scalar → Scalar)
    (values : List AuthOpenInput) (f : AuthOpenInput → StarkPoint) :
    AuthenticatedStarkPointResult.verify_loop H (values.map f)
        (values.map (·.peer_mac_check)) (values.map (·.peer_blinder))
        (values.map (·.peer_commitment))
      = values.map (fun i => .Scalar (Scalar.ofBool
          (AuthenticatedStarkPointResult.verify_mac_check H (f i)
            i.peer_mac_check i.peer_commitment i.peer_blinder))) := by
  induction values with
  | nil => rfl
  | cons x xs ih =>
      simp [AuthenticatedStarkPointResult.verify_loop, ih]

/-- C7: For every non-empty batch `[v1, ..., vn]` of authenticated points,
under honest execution `open_authenticated_batch` returns element-wise the
same opened values and the same MAC-check outcomes (`Ok`/`Err`) as `n`
independent `open_authenticated` calls on the same elements. -/
theorem claim_C7 (H : StarkPoint → Scalar → Scalar) (k : Scalar)
    (values : List AuthOpenInput) :
    AuthenticatedStarkPointResult.open_authenticated_batch H k values
      = values.map (AuthenticatedStarkPointResult.open_authenticated H k) := by
  simp only [AuthenticatedStarkPointResult.open_authenticated_batch]
  split_ifs with h
  · rw [List.isEmpty_iff] at h
    simp [h]
  · have hmac : AuthenticatedStarkPointResult.mac_check_gate_batch
        (.Scalar k :: values.flatMap (fun i =>
          [.Point i.value, .Point i.modifier, .Point i.mac]))
        = values.map (fun i =>
            .Point (k * (i.value + i.modifier) - i.mac)) := by
      rw [show AuthenticatedStarkPointResult.mac_check_gate_batch
            (.Scalar k :: values.flatMap (fun i =>
              [.Point i.value, .Point i.modifier, .Point i.mac]))
          = (AuthenticatedStarkPointResult.mac_check_loop k
              (values.flatMap (fun i =>
                [.Point i.value, .Point i.modifier, .Point i.mac]))).map .Point
          from rfl]
      rw [mac_check_loop_flatMap]
      simp
    rw [hmac]
    simp only [AuthenticatedStarkPointResult.commitment_check_gate_batch]
    rw [List.take_left' (by simp), List.drop_left' (by simp)]
    simp only [List.getD_cons_zero, List.getD_cons_succ,
      toPointList_batch, toScalarList_batch, List.map_map]
    rw [show (ResultValue.toPoint ∘ fun i : AuthOpenInput =>
          ResultValue.Point (k * (i.value + i.modifier) - i.mac))
        = (fun i : AuthOpenInput => k * (i.value + i.modifier) - i.mac)
        from rfl]
    rw [verify_loop_map H values
      (fun i => k * (i.value + i.modifier) - i.mac)]
    rw [List.zipWith_map_right, List.zipWith_same]
    apply List.map_congr_left
    intro i _
    show pollOpenResult i.value (Scalar.ofBool
        (AuthenticatedStarkPointResult.verify_mac_check H
          (k * (i.value + i.modifier) - i.mac)
          i.peer_mac_check i.peer_commitment i.peer_blinder))
      = AuthenticatedStarkPointResult.open_authenticated H k i
    simp only [AuthenticatedStarkPointResult.open_authenticated,
      AuthenticatedStarkPointResult.mac_check_gate,
      AuthenticatedStarkPointResult.commitment_check_gate]
    simp only [List.getD_cons_zero, List.getD_cons_succ, toScalar_scalar,
      toPoint_point]
    rw [point_mul_comm]

theorem new_op_fold_spec (l : List Nat) (acc : List ResultId × FabricInner.State) :
    (l.foldl (fun (acc : List ResultId × FabricInner.State) _ =>
        let r := FabricInner.new_result_id acc.2
        (acc.1 ++ [r.1], r.2)) acc).2.results = acc.2.results
    ∧ (l.foldl (fun (acc : List ResultId × FabricInner.State) _ =>
        let r := FabricInner.new_result_id acc.2
        (acc.1 ++ [r.1], r.2)) acc).2.next_result_id
        = acc.2.next_result_id + l.length
    ∧ ∀ id ∈ (l.foldl (fun (acc : List ResultId × FabricInner.State) _ =>
        let r := FabricInner.new_result_id acc.2
        (acc.1 ++ [r.1], r.2)) acc).1,
        id ∈ acc.1 ∨ acc.2.next_result_id ≤ id := by
  induction l generalizing acc with
  | nil => exact ⟨rfl, by simp, fun id hid => Or.inl hid⟩
  | cons hd tl ih =>
      simp only [List.foldl_cons]
      refine ⟨(ih _).1, ?_, ?_⟩
      · rw [(ih _).2.1]
        simp [FabricInner.new_result_id, List.length_cons]
        omega
      · intro id hid
        rcases (ih _).2.2 id hid with hmem | hge
        · rw [List.mem_append] at hmem
          rcases hmem with hmem | hmem
          · exact Or.inl hmem
          · simp only [List.mem_singleton] at hmem
            subst hmem
            exact Or.inr (le_refl _)
        · simp only [FabricInner.new_result_id] at hge
          exact Or.inr (le_trans (Nat.le_succ _) hge)

theorem step_next_ge (s : FabricInner.State) (e : FabricInner.Event) :
    s.next_result_id ≤ (FabricInner.step s e).next_result_id := by
  cases e with
  | alloc_value v =>
      simp [FabricInner.step, FabricInner.allocate_value,
        FabricInner.new_result_id]
  | alloc_shared my their =>
      simp [FabricInner.step, FabricInner.allocate_shared_value,
        FabricInner.new_result_id]
  | recv =>
      simp [FabricInner.step, FabricInner.receive_value,
        FabricInner.new_result_id]
  | op arity =>
      show s.next_result_id ≤ (FabricInner.new_op s arity).2.next_result_id
      simp only [FabricInner.new_op]
      rw [(new_op_fold_spec (List.range arity) ([], s)).2.1]
      simp

theorem step_preserves_lookup (s : FabricInner.State) (e : FabricInner.Event)
    (c : ResultId) (hc : c < s.next_result_id) :
    (FabricInner.step s e).lookup c = s.lookup c := by
  cases e with
  | alloc_value v =>
      have hd : decide (s.next_result_id = c) = false := by
        simp only [decide_eq_false_iff_not]
        exact ne_of_gt hc
      simp only [FabricInner.step, FabricInner.allocate_value,
        FabricInner.new_result_id, FabricInner.State.lookup,
        List.find?_cons, hd]
  | alloc_shared my their =>
      have hd : decide (s.next_result_id = c) = false := by
        simp only [decide_eq_false_iff_not]
        exact ne_of_gt hc
      simp only [FabricInner.step, FabricInner.allocate_shared_value,
        FabricInner.new_result_id, FabricInner.State.lookup,
        List.find?_cons, hd]
  | recv => rfl
  | op arity =>
      simp only [FabricInner.step, FabricInner.new_op,
        FabricInner.State.lookup]
      rw [(new_op_fold_spec (List.range arity) ([], s)).1]

theorem stepIds_ge (s : FabricInner.State) (e : FabricInner.Event) :
    ∀ id ∈ FabricInner.stepIds s e, s.next_result_id ≤ id := by
  cases e with
  | alloc_value v =>
      intro id hid
      simp [FabricInner.stepIds, FabricInner.allocate_value,
        FabricInner.new_result_id] at hid
      exact le_of_eq hid.symm
  | alloc_shared my their =>
      intro id hid
      simp [FabricInner.stepIds, FabricInner.allocate_shared_value,
        FabricInner.new_result_id] at hid
      exact le_of_eq hid.symm
  | recv =>
      intro id hid
      simp [FabricInner.stepIds, FabricInner.receive_value,
        FabricInner.new_result_id] at hid
      exact le_of_eq hid.symm
  | op arity =>
      intro id hid
      simp only [FabricInner.stepIds, FabricInner.new_op] at hid
      rcases (new_op_fold_spec (List.range arity) ([], s)).2.2 id hid with
        hmem | hge
      · simp at hmem
      · exact hge

/-- The allocation invariant of the fabric: the result-id counter never
goes below the number of constant results, and the three constant ids
resolve to their constants. -/
def FabricInv (s : FabricInner.State) : Prop :=
  N_CONSTANT_RESULTS ≤ s.next_result_id
  ∧ s.lookup RESULT_ZERO = some (.Scalar 0)
  ∧ s.lookup RESULT_ONE = some (.Scalar 1)
  ∧ s.lookup RESULT_IDENTITY = some (.Point StarkPoint.identity)

theorem fabricInv_step (s : FabricInner.State) (e : FabricInner.Event)
    (h : FabricInv s) : FabricInv (FabricInner.step s e) := by
  obtain ⟨hn, h0, h1, h2⟩ := h
  have hz : RESULT_ZERO < N_CONSTANT_RESULTS := by
    norm_num [RESULT_ZERO, N_CONSTANT_RESULTS]
  have ho : RESULT_ONE < N_CONSTANT_RESULTS := by
    norm_num [RESULT_ONE, N_CONSTANT_RESULTS]
  have hi : RESULT_IDENTITY < N_CONSTANT_RESULTS := by
    norm_num [RESULT_IDENTITY, N_CONSTANT_RESULTS]
  refine ⟨le_trans hn (step_next_ge s e), ?_, ?_, ?_⟩
  · rw [step_preserves_lookup s e RESULT_ZERO (lt_of_lt_of_le hz hn)]
    exact h0
  · rw [step_preserves_lookup s e RESULT_ONE (lt_of_lt_of_le ho hn)]
    exact h1
  · rw [step_preserves_lookup s e RESULT_IDENTITY (lt_of_lt_of_le hi hn)]
    exact h2

theorem fabricInv_foldl (trace : List FabricInner.Event)
    (s : FabricInner.State) (h : FabricInv s) :
    FabricInv (trace.foldl FabricInner.step s) := by
  induction trace generalizing s with
  | nil => exact h
  | cons e tr ih => exact ih _ (fabricInv_step s e h)

theorem fabricInv_new : FabricInv FabricInner.new := by
  refine ⟨le_refl _, rfl, rfl, rfl⟩

/-- C8: At fabric construction, result ids 0, 1 and 2 are pre-populated with
the scalar zero, the scalar one and the curve identity point respectively,
and every result id subsequently allocated by any allocation or
gate-construction primitive is at least 3, so the three constant results are
never overwritten for the life of the fabric. -/
theorem claim_C8 (trace : List FabricInner.Event) (e : FabricInner.Event) :
    FabricInner.new.lookup RESULT_ZERO = some (.Scalar 0)
    ∧ FabricInner.new.lookup RESULT_ONE = some (.Scalar 1)
    ∧ FabricInner.new.lookup RESULT_IDENTITY
        = some (.Point StarkPoint.identity)
    ∧ (FabricInner.run trace).lookup RESULT_ZERO = some (.Scalar 0)
    ∧ (FabricInner.run trace).lookup RESULT_ONE = some (.Scalar 1)
    ∧ (FabricInner.run trace).lookup RESULT_IDENTITY
        = some (.Point StarkPoint.identity)
    ∧ ∀ id ∈ FabricInner.stepIds (FabricInner.run trace) e,
        N_CONSTANT_RESULTS ≤ id := by
  have hinv := fabricInv_foldl trace FabricInner.new fabricInv_new
  refine ⟨rfl, rfl, rfl, hinv.2.1, hinv.2.2.1, hinv.2.2.2, ?_⟩
  intro id hid
  exact le_trans hinv.1 (stepIds_ge (FabricInner.run trace) e id hid)

/-- Witness for C10 (amended) at concrete equal-length singleton batches. -/
theorem claim_C10_witness :
    ([{ share := StarkPoint.generator, mac := StarkPoint.generator,
        public_modifier := StarkPoint.generator }] : List AuthPoint).length
      = ([{ share := StarkPoint.identity, mac := StarkPoint.identity,
            public_modifier := StarkPoint.identity }] : List AuthPoint).length
    ∧ AuthenticatedStarkPointResult.batch_sub
        [{ share := StarkPoint.generator, mac := StarkPoint.generator,
           public_modifier := StarkPoint.generator }]
        [{ share := StarkPoint.identity, mac := StarkPoint.identity,
           public_modifier := StarkPoint.identity }]
      = List.zipWith (fun x y =>
          AuthPoint.mk (AuthenticatedStarkPointResult.sub x y).share
            (AuthenticatedStarkPointResult.sub x y).mac
            (x.public_modifier - y.public_modifier))
          [{ share := StarkPoint.generator, mac := StarkPoint.generator,
             public_modifier := StarkPoint.generator }]
          [{ share := StarkPoint.identity, mac := StarkPoint.identity,
             public_modifier := StarkPoint.identity }] :=
  ⟨rfl, claim_C10 _ _ rfl⟩

end MpcStark
